import Mathlib

/-!
Verification of the `def_mod` procedural-macro crate (`src/lib.rs`).

The development shallowly embeds the crate's data model and code generator:
token trees (`proc_macro2`), the `replace_idents` rewrite, the `convert`
assertion generator, the `tokenise_method` closure, the per-item processing of
a module body, and the attribute-routing loop of `def_mod` itself.  Panics
(`expect`/`unwrap`) are modelled as `Except.error`; compiler diagnostics
(`span.error(..)/warning(..).emit()`) are modelled as an accumulated list of
`Diag` values.  Machine integers (`u32` assertion indices) are modelled as
`Nat`: the index only grows by one per declared item, and a token input with
`2^32` items is not representable, so wrap-around is unreachable.
-/

namespace DefMod

/-- Group delimiter of a `proc_macro2::Group` (`Delimiter` has four variants;
`Delimiter::None` is called `invisible` here). -/
inductive Delim
  | paren
  | brace
  | bracket
  | invisible
deriving Repr

/-- A `proc_macro2::TokenTree`: a delimited group holding a nested token
stream, an identifier, a punctuation token, or a literal.  A token stream is a
`List Tok`. -/
inductive Tok
  | group : Delim → List Tok → Tok
  | ident : String → Tok
  | punct : String → Tok
  | lit : String → Tok
deriving Repr

mutual
/-- The per-tree transform of `replace_idents` (the closure of the `map` at
src/lib.rs lines 662-673): a `Group` is rebuilt with the same delimiter
around the recursively rewritten inner stream, an `Ident` is passed through
`func`, and every other token is kept as is. -/
def replaceIdentTok (f : String → String) : Tok → Tok
  | Tok.group d ts => Tok.group d (replaceIdents f ts)
  | Tok.ident i => Tok.ident (f i)
  | Tok.punct s => Tok.punct s
  | Tok.lit s => Tok.lit s

/-- Embedding of `replace_idents` (src/lib.rs lines 658-676): map the per-tree
transform over the token stream. -/
def replaceIdents (f : String → String) : List Tok → List Tok
  | [] => []
  | t :: rest => replaceIdentTok f t :: replaceIdents f rest
end

/-- Embedding of the identifier-mapping closure built inside `tokenise_method`
(src/lib.rs lines 256-267): an identifier equal to `Self` is replaced by the
enclosing type's name, every other identifier is returned unchanged. -/
def selfIdentMap (typeName : String) : String → String :=
  fun i => if i = "Self" then typeName else i

mutual
/-- Follows the spec's words (refinement side of the `Self`-substitution
claim): a token-level, depth-first, structure-preserving rewrite that descends
into every nested composite node, replaces each leaf identifier equal to the
placeholder `Self` with the enclosing type name `T`, and leaves every other
token untouched. -/
def substSelfSpec (T : String) : Tok → Tok
  | Tok.group d ts => Tok.group d (substSelfSpecList T ts)
  | Tok.ident i => Tok.ident (if i = "Self" then T else i)
  | Tok.punct s => Tok.punct s
  | Tok.lit s => Tok.lit s

/-- Pointwise extension of `substSelfSpec` to a token stream. -/
def substSelfSpecList (T : String) : List Tok → List Tok
  | [] => []
  | t :: ts => substSelfSpec T t :: substSelfSpecList T ts
end

/-- Decimal digit rendered as its ASCII character, as Rust's `u32` formatting
does (digit `d` becomes the character with code `48 + d`). -/
def digitCh (d : Nat) : Char := Char.ofNat (48 + d)

/-- Inverse of `digitCh` on decimal digits (used only in proofs). -/
def chDigit (c : Char) : Nat := c.toNat - 48

/-- Little-endian decimal digits of `n`, computed with explicit fuel so that
the definition reduces by `rfl` (any `fuel ≥ n` gives the true digit list). -/
def decDigitsRev (fuel n : Nat) : List Nat :=
  match fuel with
  | 0 => []
  | f + 1 => if n = 0 then [] else n % 10 :: decDigitsRev f (n / 10)

/-- Decimal rendering of a natural number, embedding Rust's
`format!("{}", index)` for a `u32` index. -/
def natDecimal (n : Nat) : String :=
  if n = 0 then "0" else ((decDigitsRev n n).reverse.map digitCh).asString

/-- Decimal decoding (used only in proofs, as a left inverse of
`natDecimal`). -/
def decodeDecimal (s : String) : Nat :=
  Nat.ofDigits 10 ((s.data.map chDigit).reverse)

/-- Embedding of the assertion-binding identifier construction in `convert`
(src/lib.rs lines 626-629): `format!("_ASSERT_METHOD_{}", index)`. -/
def mkAssertName (index : Nat) : String := "_ASSERT_METHOD_" ++ natDecimal index

/-- A compiler diagnostic emitted through `proc_macro`'s `Diagnostic` API:
whether it is an error (as opposed to a warning), its message, and a label for
the source span it points at. -/
structure Diag where
  isError : Bool
  msg : String
  span : String
deriving Repr

/-- The error diagnostic emitted by `tokenise_method` (src/lib.rs lines
249-255) at the span of a forbidden default body. -/
def bodyErr (sp : String) : Diag := ⟨true, "A body isn't valid here.", sp⟩

/-- The deprecation warning emitted for an unnamed (`Ignored`) parameter
(src/lib.rs lines 564-569), anchored at the method's identifier span. -/
def deprecatedWarn (methodIdent : String) : Diag :=
  ⟨false, "Declaring parameters without a name is deprecated, and will not be supported in the future. [Hint: Just add \"_:\" to the parameter to remove this warning...]", methodIdent⟩

/-- A method's generic parameter list together with its where-clause, as
carried by `syn::Generics` and re-emitted verbatim through `split_for_impl`
(each entry of `params` is one generic parameter with its bounds, rendered as
text; `whereClause` is the optional where-clause, rendered as text). -/
structure Generics where
  params : List String
  whereClause : Option String
deriving Repr, DecidableEq

/-- A `syn::Pat` as it can appear in a parameter position accepted by the
`syn!(TraitItemMethod)` parser: a binding pattern `Pat::Ident` with its
optional `ref` and `mut` qualifiers (`by_ref`, `mutability`), the wildcard
`Pat::Wild` (`_`), or any other pattern form (tuples, subpatterns, ...),
carried as its rendered tokens. -/
inductive Pat
  | ident (byRef : Bool) (mutable : Bool) (name : String)
  | wild
  | other (rendered : List Tok)
deriving Repr

/-- The name under which a pattern re-parses as a `syn::BareFnArgName`:
`some name` for a plain binding identifier (no `ref`, no `mut`), `some "_"`
for the wildcard (`BareFnArgName::Wild` renders as `_`), and `none` for every
other pattern — `mut x : u32`, `ref x : u32`, `(a, b) : ...` are not valid
bare-function-argument syntax, so `parse2::<BareFnArg>` fails on them. -/
def Pat.bareName : Pat → Option String
  | Pat.ident false false n => some n
  | Pat.wild => some "_"
  | _ => none

/-- A `syn::FnArg`: a reference receiver `&self`/`&'a mut self`, a by-value
receiver `self`/`mut self`, an explicitly typed pattern `pat: Ty`, a pattern
with inferred type, or a bare type with no pattern (deprecated form).  Types
are kept as the token streams `syn` would render for them. -/
inductive FnArg
  | selfRef (lifetime : Option String) (mutable : Bool)
  | selfValue (mutable : Bool)
  | captured (pat : Pat) (ty : List Tok)
  | inferred (pat : Pat)
  | ignored (ty : List Tok)
deriving Repr

/-- Receiver test: `SelfRef` and `SelfValue` arguments are receiver forms. -/
def FnArg.isReceiver : FnArg → Bool
  | FnArg.selfRef _ _ => true
  | FnArg.selfValue _ => true
  | _ => false

/-- Whether the argument's pattern survives the `BareFnArg` re-parse: a
`captured` or `inferred` argument needs a plain-identifier or wildcard
pattern; the other argument forms carry no pattern. -/
def FnArg.patOk : FnArg → Bool
  | FnArg.captured pat _ => pat.bareName.isSome
  | FnArg.inferred pat => pat.bareName.isSome
  | _ => true

/-- The parameter type as written in the declaration: the declared type for
`captured`/`ignored`, the placeholder `_` for `inferred`, and `[]` for
receiver forms (which declare no type). -/
def FnArg.declaredTy : FnArg → List Tok
  | FnArg.captured _ ty => ty
  | FnArg.ignored ty => ty
  | FnArg.inferred _ => [Tok.ident "_"]
  | _ => []

/-- A `syn::MethodSig` destructured as `convert` does (src/lib.rs lines
499-514): `constness` is matched with `_` and dropped by the source. -/
structure MethodSig where
  constness : Bool
  unsafety : Bool
  abi : Option String
  ident : String
  generics : Generics
  inputs : List FnArg
  variadic : Bool
  output : List Tok
deriving Repr

/-- A `syn::TraitItemMethod`: attributes, signature, and the optional default
body (`default`); `some sp` records that a default body is present, with `sp`
labelling its source span. -/
structure TraitItemMethod where
  attrs : List String
  sig : MethodSig
  defaultBody : Option String
deriving Repr

/-- A `syn::BareFnArg`: optional argument name and the argument's type as a
token stream. -/
structure BareFnArg where
  name : Option String
  ty : List Tok
deriving Repr

/-- A `syn::TypeBareFn` as assembled by `convert` (src/lib.rs lines 594-603);
`lifetimes` is always `None` there and is omitted. -/
structure TypeBareFn where
  unsafety : Bool
  abi : Option String
  inputs : List BareFnArg
  variadic : Bool
  output : List Tok
deriving Repr

/-- The code generated by `convert` for one method (src/lib.rs lines 632-655):
either `const loadIdent: ty = context::target;`, or the nested routine
`fn fnName<generics.params>() where generics.whereClause
\x7b let loadIdent: ty = context::target; \x7d` for a generic method. -/
inductive Assertion
  | constBind (attrs : List String) (loadIdent : String) (ty : TypeBareFn)
      (context : String) (target : String)
  | nestedFn (attrs : List String) (fnName : String) (generics : Generics)
      (loadIdent : String) (ty : TypeBareFn) (context : String) (target : String)
deriving Repr

/-- The counter-derived binding identifier of an assertion (`_ASSERT_METHOD_i`
in both branches of `convert`). -/
def Assertion.loadIdent : Assertion → String
  | Assertion.constBind _ n _ _ _ => n
  | Assertion.nestedFn _ _ _ n _ _ _ => n

/-- The bare-function-pointer type carried by an assertion. -/
def Assertion.bareTy : Assertion → TypeBareFn
  | Assertion.constBind _ _ ty _ _ => ty
  | Assertion.nestedFn _ _ _ _ ty _ _ => ty

/-- Whether the assertion is a plain constant binding. -/
def Assertion.isConst : Assertion → Bool
  | Assertion.constBind _ _ _ _ _ => true
  | Assertion.nestedFn _ _ _ _ _ _ _ => false

/-- The generic parameter list carried by a nested verification routine
(`none` for a constant binding). -/
def Assertion.genericsOf : Assertion → Option Generics
  | Assertion.constBind _ _ _ _ _ => none
  | Assertion.nestedFn _ _ g _ _ _ _ => some g

/-- Tokens of a rendered lifetime (`proc_macro2` renders `'a` as an apostrophe
punct followed by the identifier). -/
def lifetimeToks : Option String → List Tok
  | none => []
  | some l => [Tok.punct "\x27", Tok.ident l]

/-- The conditional application of the identifier mapping, as written at each
use site in `convert`: `if let Some(ref func) = ident_mapping
\x7b replace_idents(ts, func) \x7d else \x7b ts \x7d`. -/
def applyMapping : Option (String → String) → List Tok → List Tok
  | some f, ts => replaceIdents f ts
  | none, ts => ts

/-- Embedding of the per-argument match in `convert` (src/lib.rs lines
516-582).  Each branch renders a token stream with `quote!` and re-parses it
with `parse2::<BareFnArg>`, panicking via `expect` on failure; the two steps
are folded into the resulting `BareFnArg` here, with the parse outcome made
explicit:
* `SelfRef`: renders `_self: &lifetime mut type_name`; when `type_name` is
  `None` the type position is left empty (`_self: &`), `syn`'s parse fails and
  the `expect` panics (`Except.error`); with a type name the rendered tokens
  form a valid reference type and parsing yields name `_self` with that type.
* `SelfValue`: renders `_self: mut type_name`; with no type name the type
  position is empty and the parse fails; `mut T` is also not a valid `syn`
  type, so a `mut self` receiver fails even inside a type body; plain `self`
  with a type name parses as name `_self` of type `T`.
* `Captured`: renders `pat: ty` with the identifier mapping applied to the
  type tokens; the re-parse accepts the rendered pattern only when it is a
  plain binding identifier (no `ref`/`mut`) or the wildcard `_`
  (`Pat.bareName`); any other pattern the method parser accepted — e.g.
  `mut x` in `fn f(mut x: u32);` — renders tokens that cannot parse as a
  `BareFnArgName`, and the `expect` at src/lib.rs line 554 panics.
* `Inferred`: renders `pat: _`, with the same pattern condition (the `expect`
  at line 562 panics on a non-bare pattern).
* `Ignored`: emits the deprecation warning at the method identifier's span and
  parses the (rewritten) type tokens alone, an unnamed `BareFnArg`. -/
def convertArg (typeName : Option String) (mapping : Option (String → String))
    (methodIdent : String) : FnArg → Except String (List Diag × BareFnArg)
  | FnArg.selfRef lt mu =>
    match typeName with
    | some t =>
      if mu then
        Except.ok ([], ⟨some "_self",
          Tok.punct "&" :: (lifetimeToks lt ++ [Tok.ident "mut", Tok.ident t])⟩)
      else
        Except.ok ([], ⟨some "_self", Tok.punct "&" :: (lifetimeToks lt ++ [Tok.ident t])⟩)
    | none => Except.error "Should never happen [self-ref]"
  | FnArg.selfValue mu =>
    match typeName with
    | some t =>
      if mu then Except.error "Should never happen [self-value]"
      else Except.ok ([], ⟨some "_self", [Tok.ident t]⟩)
    | none => Except.error "Should never happen [self-value]"
  | FnArg.captured pat ty =>
    match pat.bareName with
    | some n => Except.ok ([], ⟨some n, applyMapping mapping ty⟩)
    | none => Except.error "Should never happen [arg-captured]"
  | FnArg.inferred pat =>
    match pat.bareName with
    | some n => Except.ok ([], ⟨some n, [Tok.ident "_"]⟩)
    | none => Except.error "Should never happen [inferred]"
  | FnArg.ignored ty => Except.ok ([deprecatedWarn methodIdent], ⟨none, applyMapping mapping ty⟩)

/-- The `for arg in inputs` loop of `convert` (src/lib.rs lines 516-582):
arguments are converted left to right, diagnostics are accumulated in order,
and the first panic aborts. -/
def convertInputs (typeName : Option String) (mapping : Option (String → String))
    (methodIdent : String) : List FnArg → Except String (List Diag × List BareFnArg)
  | [] => Except.ok ([], [])
  | a :: rest =>
    match convertArg typeName mapping methodIdent a with
    | Except.error e => Except.error e
    | Except.ok (d1, b) =>
      match convertInputs typeName mapping methodIdent rest with
      | Except.error e => Except.error e
      | Except.ok (d2, bs) => Except.ok (d1 ++ d2, b :: bs)

/-- The nested verification routine's name (src/lib.rs lines 638-645):
`_load_{module}_{type}_{method}` inside a type and `_load_{module}_{method}`
at module level. -/
def nestedFnName (moduleName : String) (typeName : Option String)
    (methodIdent : String) : String :=
  match typeName with
  | some t => "_load_" ++ moduleName ++ "_" ++ t ++ "_" ++ methodIdent
  | none => "_load_" ++ moduleName ++ "_" ++ methodIdent

/-- Embedding of `convert` (src/lib.rs lines 438-656): convert the inputs,
apply the identifier mapping to the return type (re-parsed as `ReturnType`,
which succeeds on the rewrite of a valid return type), assemble the
`TypeBareFn`, and emit either a constant binding (no generic parameters) or a
nested generic verification routine holding the binding as a `let`. -/
def convert (moduleName : String) (typeName : Option String) (index : Nat)
    (methodItem : TraitItemMethod) (mapping : Option (String → String)) :
    Except String (List Diag × Assertion) :=
  match convertInputs typeName mapping methodItem.sig.ident methodItem.sig.inputs with
  | Except.error e => Except.error e
  | Except.ok (diags, inputs) =>
    let tyBareFn : TypeBareFn :=
      ⟨methodItem.sig.unsafety, methodItem.sig.abi, inputs, methodItem.sig.variadic,
        applyMapping mapping methodItem.sig.output⟩
    if methodItem.sig.generics.params = [] then
      Except.ok (diags, Assertion.constBind methodItem.attrs (mkAssertName index) tyBareFn
        (typeName.getD moduleName) methodItem.sig.ident)
    else
      Except.ok (diags, Assertion.nestedFn methodItem.attrs
        (nestedFnName moduleName typeName methodItem.sig.ident) methodItem.sig.generics
        (mkAssertName index) tyBareFn (typeName.getD moduleName) methodItem.sig.ident)

/-- Embedding of the `tokenise_method` closure (src/lib.rs lines 248-274): a
method carrying a default body produces the error diagnostic at the body's
span and an empty token stream, leaving the index unchanged; otherwise the
`Self`-mapping is installed when a type name encloses the method, `convert`
runs at the current index, and the index advances by one. -/
def tokeniseMethod (moduleName : String) (typeName : Option String) (index : Nat)
    (methodItem : TraitItemMethod) : Except String (List Diag × List Assertion × Nat) :=
  match methodItem.defaultBody with
  | some sp => Except.ok ([bodyErr sp], [], index)
  | none =>
    match convert moduleName typeName index methodItem (typeName.map selfIdentMap) with
    | Except.error e => Except.error e
    | Except.ok (d, a) => Except.ok (d, [a], index + 1)

/-- A `type` declaration's body: terminated (`type T;`) or a braced list of
method declarations. -/
inductive TypeDeclBody
  | terminated
  | content (methods : List TraitItemMethod)
deriving Repr

/-- A `type` declaration inside a module body (src/lib.rs lines 398-403). -/
structure TypeDecl where
  attrs : List String
  ident : String
  body : TypeDeclBody
deriving Repr

/-- A declaration item of a module body: a bare method or a type declaration
(src/lib.rs lines 392-396). -/
inductive DeclItem
  | method (m : TraitItemMethod)
  | typeItem (t : TypeDecl)
deriving Repr

/-- One generated check of the load function: a method assertion, or the
scoped block `\x7b use self::module::TypeName; inner \x7d` generated for a
type declaration (src/lib.rs lines 280-301). -/
inductive CheckItem
  | assertion (a : Assertion)
  | typeBlock (attrs : List String) (moduleName : String) (typeName : String)
      (inner : List Assertion)
deriving Repr

/-- Processing of a type body's methods (src/lib.rs lines 284-290): each
method goes through `tokenise_method` with the enclosing type's name, the
index threading through. -/
def processMethods (moduleName typeName : String) (index : Nat) :
    List TraitItemMethod → Except String (List Diag × List Assertion × Nat)
  | [] => Except.ok ([], [], index)
  | m :: rest =>
    match tokeniseMethod moduleName (some typeName) index m with
    | Except.error e => Except.error e
    | Except.ok (d1, as1, i1) =>
      match processMethods moduleName typeName i1 rest with
      | Except.error e => Except.error e
      | Except.ok (d2, as2, i2) => Except.ok (d1 ++ d2, as1 ++ as2, i2)

/-- Processing of a single declaration item (the `match item` inside the map
at src/lib.rs lines 275-305).  A method item whose `tokenise_method` produced
an empty token stream contributes no check item, matching the
`filter(|t| !t.is_empty())`; a type declaration always contributes its scoped
block, which is never an empty stream. -/
def processItem (moduleName : String) (index : Nat) :
    DeclItem → Except String (List Diag × List CheckItem × Nat)
  | DeclItem.method m =>
    match tokeniseMethod moduleName none index m with
    | Except.error e => Except.error e
    | Except.ok (d, as, i1) => Except.ok (d, as.map CheckItem.assertion, i1)
  | DeclItem.typeItem t =>
    match t.body with
    | TypeDeclBody.terminated =>
      Except.ok ([], [CheckItem.typeBlock t.attrs moduleName t.ident []], index)
    | TypeDeclBody.content ms =>
      match processMethods moduleName t.ident index ms with
      | Except.error e => Except.error e
      | Except.ok (d, as, i1) =>
        Except.ok (d, [CheckItem.typeBlock t.attrs moduleName t.ident as], i1)

/-- Processing of a whole module body, left to right (src/lib.rs lines
275-305), threading the module-scoped assertion index. -/
def processItems (moduleName : String) (index : Nat) :
    List DeclItem → Except String (List Diag × List CheckItem × Nat)
  | [] => Except.ok ([], [], index)
  | item :: rest =>
    match processItem moduleName index item with
    | Except.error e => Except.error e
    | Except.ok (d1, cs1, i1) =>
      match processItems moduleName i1 rest with
      | Except.error e => Except.error e
      | Except.ok (d2, cs2, i2) => Except.ok (d1 ++ d2, cs1 ++ cs2, i2)

/-- A module declaration's body: a terminating semicolon or a braced list of
declaration items (src/lib.rs lines 347-351). -/
inductive ModuleBody
  | terminated
  | content (items : List DeclItem)
deriving Repr

/-- Whether the body is the braced (`Content`) form. -/
def ModuleBody.isContent : ModuleBody → Bool
  | ModuleBody.terminated => false
  | ModuleBody.content _ => true

/-- A parsed module declaration (src/lib.rs lines 338-345): attributes each
with an optional path literal, a visibility qualifier, the module name, and
the body. -/
structure ModuleDecl where
  attrs : List (String × Option String)
  vis : String
  ident : String
  body : ModuleBody
deriving Repr

/-- An attribute as it appears on an emitted module statement: a copied plain
attribute, or the injected `#[path = "..."]` directive. -/
inductive ModAttr
  | plain (attr : String)
  | pathDirective (path : String)
deriving Repr, DecidableEq

/-- One emitted `vis mod ident;` statement with its attributes in emission
order. -/
structure ModStmt where
  attrs : List ModAttr
  vis : String
  ident : String
deriving Repr, DecidableEq

/-- The attribute-grouping loop of `def_mod` (src/lib.rs lines 207-216):
attributes declared with a path value are collected in order into the first
component, all others in order into the second. -/
def splitAttrs (attrs : List (String × Option String)) :
    List (String × String) × List String :=
  attrs.foldl
    (fun acc a =>
      match a with
      | (attr, some path) => (acc.1 ++ [(attr, path)], acc.2)
      | (attr, none) => (acc.1, acc.2 ++ [attr]))
    ([], [])

/-- The module-statement emission of `def_mod` (src/lib.rs lines 225-242): if
no attribute carried a path, one statement with all the plain attributes;
otherwise one statement per pathed attribute, carrying that attribute, then
the injected path directive with the path string exactly as written, then
every plain attribute. -/
def emitModStmts (m : ModuleDecl) : List ModStmt :=
  let pathed := (splitAttrs m.attrs).1
  let custom := (splitAttrs m.attrs).2
  if pathed = [] then
    [⟨custom.map ModAttr.plain, m.vis, m.ident⟩]
  else
    pathed.foldl
      (fun out ap =>
        out ++ [⟨ModAttr.plain ap.1 :: ModAttr.pathDirective ap.2 :: custom.map ModAttr.plain,
          m.vis, m.ident⟩])
      []

/-- The generated load function (src/lib.rs lines 307-317):
`fn _load_{module}() \x7b use self::module::*; items \x7d`. -/
structure LoadFn where
  name : String
  moduleName : String
  items : List CheckItem
deriving Repr

/-- Processing of one module declaration (the loop body of `def_mod`,
src/lib.rs lines 206-319): emit the routed module statements, and when the
body is the braced form, generate the load function from the body's items with
the assertion index starting at `0`. -/
def defModModule (m : ModuleDecl) :
    Except String (List Diag × List ModStmt × Option LoadFn) :=
  let stmts := emitModStmts m
  match m.body with
  | ModuleBody.terminated => Except.ok ([], stmts, none)
  | ModuleBody.content items =>
    match processItems m.ident 0 items with
    | Except.error e => Except.error e
    | Except.ok (diags, checks, _) =>
      Except.ok (diags, stmts, some ⟨"_load_" ++ m.ident, m.ident, checks⟩)

/-- The whole `def_mod` entry point over the parsed declarations (src/lib.rs
lines 199-322): modules are processed in order; a panic anywhere aborts the
invocation with no output. -/
def defMod : List ModuleDecl → Except String (List Diag × List (List ModStmt × Option LoadFn))
  | [] => Except.ok ([], [])
  | m :: rest =>
    match defModModule m with
    | Except.error e => Except.error e
    | Except.ok (d1, s, lf) =>
      match defMod rest with
      | Except.error e => Except.error e
      | Except.ok (d2, out) => Except.ok (d1 ++ d2, (s, lf) :: out)

/-- The counter-derived identifiers generated for one check item: the binding
name of a method assertion, or the binding names inside a type's scoped
block. -/
def CheckItem.assertNames : CheckItem → List String
  | CheckItem.assertion a => [a.loadIdent]
  | CheckItem.typeBlock _ _ _ inner => inner.map Assertion.loadIdent

/-- All counter-derived identifiers generated for a list of check items, in
emission order. -/
def assertNames : List CheckItem → List String
  | [] => []
  | c :: cs => c.assertNames ++ assertNames cs

/-- The path-valued attributes of a module, in declaration order (spec-side
description of the first component of `splitAttrs`). -/
def pathedOf (attrs : List (String × Option String)) : List (String × String) :=
  attrs.filterMap fun a => a.2.map fun p => (a.1, p)

/-- The plain (non-path) attributes of a module, in declaration order
(spec-side description of the second component of `splitAttrs`). -/
def plainOf (attrs : List (String × Option String)) : List String :=
  attrs.filterMap fun a =>
    match a.2 with
    | some _ => none
    | none => some a.1

/-- Example module with two plain attributes and no path-valued attribute. -/
def exNoPathMod : ModuleDecl :=
  ⟨[("#[cfg(windows)]", none), ("#[allow(dead_code)]", none)], "pub", "sys",
    ModuleBody.terminated⟩

/-- Example module with one plain attribute and two path-valued attributes
(the `sys` example of the crate's documentation). -/
def exTwoPathMod : ModuleDecl :=
  ⟨[("#[allow(dead_code)]", none), ("#[cfg(windows)]", some "sys/win/mod.rs"),
    ("#[cfg(not(windows))]", some "sys/nix/mod.rs")], "", "sys",
    ModuleBody.terminated⟩

/-- Example generic method `fn generic<T>(_: T) -> T;`. -/
def exGenericMethod : TraitItemMethod :=
  ⟨[], ⟨false, false, none, "generic", ⟨["T"], none⟩,
    [FnArg.captured Pat.wild [Tok.ident "T"]], false, [Tok.punct "->", Tok.ident "T"]⟩, none⟩

/-- The assertion generated for `exGenericMethod` at module `other`, index 0. -/
def exGenericAssertion : Assertion :=
  Assertion.nestedFn [] "_load_other_generic" ⟨["T"], none⟩ "_ASSERT_METHOD_0"
    ⟨false, none, [⟨some "_", [Tok.ident "T"]⟩], false, [Tok.punct "->", Tok.ident "T"]⟩
    "other" "generic"

/-- Example non-generic method `fn method(_: u32) -> u8;`. -/
def exPlainMethod : TraitItemMethod :=
  ⟨[], ⟨false, false, none, "method", ⟨[], none⟩,
    [FnArg.captured Pat.wild [Tok.ident "u32"]], false, [Tok.punct "->", Tok.ident "u8"]⟩, none⟩

/-- The assertion generated for `exPlainMethod` at module `other`, index 0. -/
def exPlainAssertion : Assertion :=
  Assertion.constBind [] "_ASSERT_METHOD_0"
    ⟨false, none, [⟨some "_", [Tok.ident "u32"]⟩], false, [Tok.punct "->", Tok.ident "u8"]⟩
    "other" "method"

/-- Example method `fn clear(&mut self);` inside a type body. -/
def exRecvMutMethod : TraitItemMethod :=
  ⟨[], ⟨false, false, none, "clear", ⟨[], none⟩, [FnArg.selfRef none true], false, []⟩, none⟩

/-- The assertion generated for `exRecvMutMethod` inside type `MyStruct`. -/
def exRecvMutAssertion : Assertion :=
  Assertion.constBind [] "_ASSERT_METHOD_0"
    ⟨false, none, [⟨some "_self", [Tok.punct "&", Tok.ident "mut", Tok.ident "MyStruct"]⟩],
      false, []⟩
    "MyStruct" "clear"

/-- Example method `fn dupe(&self) -> Self;` inside a type body. -/
def exRecvRefMethod : TraitItemMethod :=
  ⟨[], ⟨false, false, none, "dupe", ⟨[], none⟩, [FnArg.selfRef none false], false,
    [Tok.punct "->", Tok.ident "Self"]⟩, none⟩

/-- The assertion generated for `exRecvRefMethod` inside type `MyStruct`
(note the `Self` in the return type rewritten to `MyStruct`). -/
def exRecvRefAssertion : Assertion :=
  Assertion.constBind [] "_ASSERT_METHOD_0"
    ⟨false, none, [⟨some "_self", [Tok.punct "&", Tok.ident "MyStruct"]⟩], false,
      [Tok.punct "->", Tok.ident "MyStruct"]⟩
    "MyStruct" "dupe"

/-- Example method `fn consume(self);` inside a type body. -/
def exRecvValMethod : TraitItemMethod :=
  ⟨[], ⟨false, false, none, "consume", ⟨[], none⟩, [FnArg.selfValue false], false, []⟩, none⟩

/-- The assertion generated for `exRecvValMethod` inside type `MyStruct`. -/
def exRecvValAssertion : Assertion :=
  Assertion.constBind [] "_ASSERT_METHOD_0"
    ⟨false, none, [⟨some "_self", [Tok.ident "MyStruct"]⟩], false, []⟩
    "MyStruct" "consume"

/-- Example bare module-level method with a reference receiver,
`fn dupe(&self);` written directly in a module body. -/
def exBareSelfMethod : TraitItemMethod :=
  ⟨[], ⟨false, false, none, "dupe", ⟨[], none⟩, [FnArg.selfRef none false], false, []⟩, none⟩

/-- Example bare method `fn method(_: u64, _: u8) -> u32;` (the README
example). -/
def exBareMethod : TraitItemMethod :=
  ⟨[], ⟨false, false, none, "method", ⟨[], none⟩,
    [FnArg.captured Pat.wild [Tok.ident "u64"], FnArg.captured Pat.wild [Tok.ident "u8"]], false,
    [Tok.punct "->", Tok.ident "u32"]⟩, none⟩

/-- Example bare method `fn f(mut x: u32);` whose parameter pattern carries a
`mut` qualifier (accepted by the method parser, rejected by the `BareFnArg`
re-parse). -/
def exMutPatMethod : TraitItemMethod :=
  ⟨[], ⟨false, false, none, "f", ⟨[], none⟩,
    [FnArg.captured (Pat.ident false true "x") [Tok.ident "u32"]], false, []⟩, none⟩

/-- Example method declaration carrying a (forbidden) default body whose span
is labelled `body_span`. -/
def exBodyMethod : TraitItemMethod :=
  ⟨[], ⟨false, false, none, "bad", ⟨[], none⟩, [], false, []⟩, some "body_span"⟩

/-- Example module whose body holds one bare method with a receiver. -/
def exRecvBareMod : ModuleDecl :=
  ⟨[], "", "bad_mod", ModuleBody.content [DeclItem.method exBareSelfMethod]⟩

/-- The `mod test` declaration of the crate's own `src/bin/main.rs`, reduced
to its attribute list: `#[macos]` carries the shorthand path `"~nix"`. -/
def exTildeMod : ModuleDecl :=
  ⟨[("#[macos]", some "~nix")], "", "test", ModuleBody.terminated⟩

/-- Example module declared with an empty braced body: `mod m { }`. -/
def exEmptyBracedMod : ModuleDecl := ⟨[], "", "m", ModuleBody.content []⟩

/-- Example module declared without a body: `mod m;`. -/
def exTermMod : ModuleDecl := ⟨[], "", "m", ModuleBody.terminated⟩

/-- Example method `fn new() -> Self;` for type bodies. -/
def exNewMethod : TraitItemMethod :=
  ⟨[], ⟨false, false, none, "new", ⟨[], none⟩, [], false,
    [Tok.punct "->", Tok.ident "Self"]⟩, none⟩

/-- Example module holding two types that share the method display name `new`
plus a bare method: `mod m \x7b type A \x7b fn new() -> Self; \x7d
type B \x7b fn new() -> Self; \x7d fn method(_: u32) -> u8; \x7d`. -/
def exC3Mod : ModuleDecl :=
  ⟨[], "", "m", ModuleBody.content
    [DeclItem.typeItem ⟨[], "A", TypeDeclBody.content [exNewMethod]⟩,
      DeclItem.typeItem ⟨[], "B", TypeDeclBody.content [exNewMethod]⟩,
      DeclItem.method exPlainMethod]⟩

/-- The load function generated for `exC3Mod`: three assertions indexed
`0`, `1`, `2` across the two type blocks and the bare method. -/
def exC3LoadFn : LoadFn :=
  ⟨"_load_m", "m",
    [CheckItem.typeBlock [] "m" "A"
        [Assertion.constBind [] "_ASSERT_METHOD_0"
          ⟨false, none, [], false, [Tok.punct "->", Tok.ident "A"]⟩ "A" "new"],
      CheckItem.typeBlock [] "m" "B"
        [Assertion.constBind [] "_ASSERT_METHOD_1"
          ⟨false, none, [], false, [Tok.punct "->", Tok.ident "B"]⟩ "B" "new"],
      CheckItem.assertion
        (Assertion.constBind [] "_ASSERT_METHOD_2"
          ⟨false, none, [⟨some "_", [Tok.ident "u32"]⟩], false,
            [Tok.punct "->", Tok.ident "u8"]⟩ "m" "method")]⟩

end DefMod

-- THEOREMS

namespace DefMod

/-- `substSelfSpecList` is exactly `List.map substSelfSpec`. -/
theorem substSelfSpecList_eq_map (T : String) :
    ∀ ts : List Tok, substSelfSpecList T ts = ts.map (substSelfSpec T)
  | [] => rfl
  | _ :: ts => by
    rw [substSelfSpecList, List.map_cons, substSelfSpecList_eq_map T ts]

mutual
/-- The per-tree transform applied with the `Self`-mapping agrees with the
spec-side structural substitution on every token tree. -/
theorem replaceIdentTok_selfIdentMap (T : String) :
    ∀ t : Tok, replaceIdentTok (selfIdentMap T) t = substSelfSpec T t
  | Tok.group d ts => by
    rw [replaceIdentTok, substSelfSpec, replaceIdents_selfIdentMap T ts,
      substSelfSpecList_eq_map]
  | Tok.ident i => by rw [replaceIdentTok, substSelfSpec, selfIdentMap]
  | Tok.punct s => by rw [replaceIdentTok, substSelfSpec]
  | Tok.lit s => by rw [replaceIdentTok, substSelfSpec]

/-- The source rewrite applied with the `Self`-mapping agrees with the
spec-side structural substitution on every token stream. -/
theorem replaceIdents_selfIdentMap (T : String) :
    ∀ ts : List Tok, replaceIdents (selfIdentMap T) ts = ts.map (substSelfSpec T)
  | [] => by rw [replaceIdents, List.map_nil]
  | t :: ts => by
    rw [replaceIdents, List.map_cons, replaceIdentTok_selfIdentMap T t,
      replaceIdents_selfIdentMap T ts]
end

/-- With enough fuel, `decDigitsRev` computes `Nat.digits 10`. -/
theorem decDigitsRev_eq (f : Nat) :
    ∀ n : Nat, n ≤ f → decDigitsRev f n = Nat.digits 10 n := by
  induction f with
  | zero => intro n hn; interval_cases n; simp [decDigitsRev]
  | succ f ih =>
    intro n hn
    by_cases h0 : n = 0
    · simp [decDigitsRev, h0]
    · rw [decDigitsRev, if_neg h0,
        Nat.digits_def' (by norm_num : (1 : Nat) < 10) (Nat.pos_of_ne_zero h0),
        ih (n / 10) ?_]
      have h1 : n / 10 < n := Nat.div_lt_self (Nat.pos_of_ne_zero h0) (by norm_num)
      omega

/-- `chDigit` inverts `digitCh` on decimal digits. -/
theorem chDigit_digitCh : ∀ d : Nat, d < 10 → chDigit (digitCh d) = d := by decide

/-- `decodeDecimal` is a left inverse of `natDecimal`. -/
theorem decode_natDecimal : ∀ n : Nat, decodeDecimal (natDecimal n) = n := by
  intro n
  by_cases h0 : n = 0
  · subst h0; decide
  · rw [natDecimal, if_neg h0]
    show Nat.ofDigits 10
      (((((decDigitsRev n n).reverse.map digitCh).asString).data.map chDigit).reverse) = n
    have hdata : (((decDigitsRev n n).reverse.map digitCh).asString).data
        = (decDigitsRev n n).reverse.map digitCh := rfl
    rw [hdata, decDigitsRev_eq n n le_rfl, List.map_map]
    have hcongr : ((Nat.digits 10 n).reverse.map (chDigit ∘ digitCh))
        = (Nat.digits 10 n).reverse := by
      apply List.map_congr_left ?_ |>.trans (List.map_id _)
      intro d hd
      exact chDigit_digitCh d (Nat.digits_lt_base (by norm_num) (List.mem_reverse.mp hd))
    rw [hcongr, List.reverse_reverse, Nat.ofDigits_digits]

/-- Decimal rendering is injective. -/
theorem natDecimal_inj {a b : Nat} (h : natDecimal a = natDecimal b) : a = b := by
  have := congrArg decodeDecimal h
  rwa [decode_natDecimal, decode_natDecimal] at this

/-- Two strings with the same character data are equal. -/
theorem strOfData {a b : String} (h : a.data = b.data) : a = b := by
  cases a; cases b; exact congrArg String.mk h

/-- The assertion-binding identifier determines its index. -/
theorem mkAssertName_inj {a b : Nat} (h : mkAssertName a = mkAssertName b) : a = b := by
  have hd := congrArg String.data h
  rw [mkAssertName, mkAssertName, String.data_append, String.data_append] at hd
  exact natDecimal_inj (strOfData (List.append_cancel_left hd))

/-- The grouping loop splits the attribute list into the path-valued
attributes and the plain attributes, each in declaration order. -/
theorem splitAttrs_eq (attrs : List (String × Option String)) :
    splitAttrs attrs = (pathedOf attrs, plainOf attrs) := by
  suffices h : ∀ (p : List (String × String)) (c : List String),
      attrs.foldl
        (fun acc a =>
          match a with
          | (attr, some path) => (acc.1 ++ [(attr, path)], acc.2)
          | (attr, none) => (acc.1, acc.2 ++ [attr]))
        (p, c) = (p ++ pathedOf attrs, c ++ plainOf attrs) by
    simpa [splitAttrs] using h [] []
  induction attrs with
  | nil => intro p c; simp [pathedOf, plainOf]
  | cons a rest ih =>
    intro p c
    obtain ⟨attr, p?⟩ := a
    cases p? with
    | none =>
      simp only [List.foldl_cons, ih, pathedOf, plainOf, List.filterMap_cons]
      simp
    | some path =>
      simp only [List.foldl_cons, ih, pathedOf, plainOf, List.filterMap_cons]
      simp

/-- Folding statement emission is mapping over the pathed attributes. -/
theorem foldl_append_map {α β : Type} (f : α → β) :
    ∀ (l : List α) (init : List β),
      l.foldl (fun out a => out ++ [f a]) init = init ++ l.map f := by
  intro l
  induction l with
  | nil => intro init; simp
  | cons a rest ih => intro init; simp [ih]

/-- When no attribute carries a path, every attribute is plain. -/
theorem plainOf_of_pathedOf_nil {attrs : List (String × Option String)}
    (h : pathedOf attrs = []) : plainOf attrs = attrs.map Prod.fst := by
  induction attrs with
  | nil => simp [plainOf]
  | cons a rest ih =>
    obtain ⟨attr, p?⟩ := a
    cases p? with
    | none =>
      simp only [pathedOf, List.filterMap_cons, Option.map_none'] at h
      simp only [plainOf, List.filterMap_cons, List.map_cons]
      have := ih (by simpa [pathedOf] using h)
      simp only [plainOf] at this
      rw [this]
    | some path =>
      simp [pathedOf, List.filterMap_cons] at h

/-- Inversion of a successful `convert`: the inputs converted successfully,
the assertion carries the assembled bare-function type and the counter-derived
binding name, and its shape follows the generic-parameter test. -/
theorem convert_ok {mn : String} {tn : Option String} {idx : Nat}
    {m : TraitItemMethod} {mp : Option (String → String)} {d : List Diag} {a : Assertion}
    (h : convert mn tn idx m mp = Except.ok (d, a)) :
    ∃ bs, convertInputs tn mp m.sig.ident m.sig.inputs = Except.ok (d, bs) ∧
      a.bareTy = ⟨m.sig.unsafety, m.sig.abi, bs, m.sig.variadic,
        applyMapping mp m.sig.output⟩ ∧
      a.loadIdent = mkAssertName idx ∧
      (m.sig.generics.params = [] → a.isConst = true) ∧
      (m.sig.generics.params ≠ [] →
        a.isConst = false ∧ a.genericsOf = some m.sig.generics) := by
  rw [convert] at h
  cases hci : convertInputs tn mp m.sig.ident m.sig.inputs with
  | error e => rw [hci] at h; cases h
  | ok pair =>
    obtain ⟨ds, bs⟩ := pair
    rw [hci] at h
    dsimp only at h
    by_cases hg : m.sig.generics.params = []
    · rw [if_pos hg] at h
      injection h with hpair
      injection hpair with h1 h2
      subst h1
      subst h2
      exact ⟨bs, rfl, rfl, rfl, fun _ => rfl, fun hne => absurd hg hne⟩
    · rw [if_neg hg] at h
      injection h with hpair
      injection hpair with h1 h2
      subst h1
      subst h2
      exact ⟨bs, rfl, rfl, rfl, fun heq => absurd heq hg, fun _ => ⟨rfl, rfl⟩⟩

/-- Inversion of a successful `convertInputs` on a non-empty argument list. -/
theorem convertInputs_cons_ok {tn : Option String} {mp : Option (String → String)}
    {mi : String} {a : FnArg} {rest : List FnArg} {d : List Diag} {bs : List BareFnArg}
    (h : convertInputs tn mp mi (a :: rest) = Except.ok (d, bs)) :
    ∃ d1 b d2 bs', convertArg tn mp mi a = Except.ok (d1, b) ∧
      convertInputs tn mp mi rest = Except.ok (d2, bs') ∧
      d = d1 ++ d2 ∧ bs = b :: bs' := by
  rw [convertInputs] at h
  cases hca : convertArg tn mp mi a with
  | error e => rw [hca] at h; cases h
  | ok p1 =>
    obtain ⟨d1, b⟩ := p1
    rw [hca] at h
    cases hcr : convertInputs tn mp mi rest with
    | error e => rw [hcr] at h; cases h
    | ok p2 =>
      obtain ⟨d2, bs'⟩ := p2
      rw [hcr] at h
      injection h with hpair
      injection hpair with h1 h2
      exact ⟨d1, b, d2, bs', rfl, rfl, h1.symm, h2.symm⟩

end DefMod

open DefMod

/-- C1: for a method declared inside a type declaration with enclosing type
name `T`, the rewrite applied to its parameter and return types
(`replace_idents` with the `Self`-mapping closure) replaces every leaf
identifier equal to `Self` with `T`, descending depth-first into every nested
token group, and leaves every other token and the group delimiter structure
unchanged: it coincides with the structure-preserving substitution
`substSelfSpec` written from the spec's words. -/
theorem claim_C1 (T : String) (ts : List DefMod.Tok) :
    DefMod.replaceIdents (DefMod.selfIdentMap T) ts = ts.map (DefMod.substSelfSpec T) :=
  DefMod.replaceIdents_selfIdentMap T ts

/-- C2: for every module declaration, if no attribute carries a path string,
exactly one module statement is emitted carrying all the attributes; if the
module has `k ≥ 1` path-valued attributes, exactly `k` module statements are
emitted in declaration order, each carrying exactly one path-valued attribute
followed by an injected path directive for its string, with no path-valued
attribute leaking onto another's statement, and every plain attribute copied
onto every one of the `k` statements. -/
theorem claim_C2 (m : ModuleDecl) :
    (pathedOf m.attrs = [] →
      emitModStmts m = [⟨(m.attrs.map Prod.fst).map ModAttr.plain, m.vis, m.ident⟩]) ∧
    (pathedOf m.attrs ≠ [] →
      emitModStmts m = (pathedOf m.attrs).map
        (fun ap => ⟨ModAttr.plain ap.1 :: ModAttr.pathDirective ap.2 ::
          (plainOf m.attrs).map ModAttr.plain, m.vis, m.ident⟩)) := by
  constructor
  · intro h
    rw [emitModStmts, splitAttrs_eq]
    simp [h, plainOf_of_pathedOf_nil h]
  · intro h
    rw [emitModStmts, splitAttrs_eq]
    simp only [if_neg h]
    rw [foldl_append_map]
    simp

/-- Witness for C2: the no-path module yields one statement with both plain
attributes; the module with one plain and two path-valued attributes yields
two statements, each with its own path attribute and directive and with the
plain attribute copied onto both. -/
theorem claim_C2_witness :
    emitModStmts exNoPathMod =
      [⟨[ModAttr.plain "#[cfg(windows)]", ModAttr.plain "#[allow(dead_code)]"],
        "pub", "sys"⟩] ∧
    emitModStmts exTwoPathMod =
      [⟨[ModAttr.plain "#[cfg(windows)]", ModAttr.pathDirective "sys/win/mod.rs",
          ModAttr.plain "#[allow(dead_code)]"], "", "sys"⟩,
        ⟨[ModAttr.plain "#[cfg(not(windows))]", ModAttr.pathDirective "sys/nix/mod.rs",
          ModAttr.plain "#[allow(dead_code)]"], "", "sys"⟩] := by
  constructor
  · exact ((claim_C2 exNoPathMod).1 (by decide)).trans (by decide)
  · exact ((claim_C2 exTwoPathMod).2 (by decide)).trans (by decide)

/-- C4: for every method declaration with at least one generic parameter whose
conversion succeeds, the generator never emits a plain constant binding: it
emits a nested verification routine carrying the method's generic parameter
list and where-clause verbatim (the `Generics` value, whose binding is a local
`let` in the routine's body by construction of `Assertion.nestedFn`); a method
with an empty generic parameter list always yields a constant binding. -/
theorem claim_C4 (mn : String) (tn : Option String) (idx : Nat) (m : TraitItemMethod)
    (mp : Option (String → String)) (d : List Diag) (a : Assertion)
    (h : convert mn tn idx m mp = Except.ok (d, a)) :
    (m.sig.generics.params ≠ [] →
      a.isConst = false ∧ a.genericsOf = some m.sig.generics) ∧
    (m.sig.generics.params = [] → a.isConst = true) := by
  obtain ⟨bs, -, -, -, hconst, hgen⟩ := convert_ok h
  exact ⟨hgen, hconst⟩

/-- Witness for C4: the generic method `fn generic<T>(_: T) -> T;` yields a
nested routine carrying `<T>`, and the non-generic `fn method(_: u32) -> u8;`
yields a constant binding. -/
theorem claim_C4_witness :
    (Assertion.isConst exGenericAssertion = false ∧
      Assertion.genericsOf exGenericAssertion = some ⟨["T"], none⟩) ∧
    Assertion.isConst exPlainAssertion = true :=
  ⟨(claim_C4 "other" none 0 exGenericMethod none [] exGenericAssertion rfl).1
      (by decide),
    (claim_C4 "other" none 0 exPlainMethod none [] exPlainAssertion rfl).2 rfl⟩

/-- C5: for every method declared inside type `T`'s body whose first parameter
is a receiver, the emitted function-pointer type's first parameter encodes the
receiver form: `&mut self` yields `_self: &mut T`, `&self` yields
`_self: &T`, and by-value `self` yields `_self: T` with no reference. -/
theorem claim_C5 (mn T : String) (idx : Nat) (m : TraitItemMethod) (lt : Option String)
    (rest : List FnArg) (d : List Diag) (a : Assertion) :
    (m.sig.inputs = FnArg.selfRef lt true :: rest →
      convert mn (some T) idx m (some (selfIdentMap T)) = Except.ok (d, a) →
      a.bareTy.inputs.head? = some ⟨some "_self",
        Tok.punct "&" :: (lifetimeToks lt ++ [Tok.ident "mut", Tok.ident T])⟩) ∧
    (m.sig.inputs = FnArg.selfRef lt false :: rest →
      convert mn (some T) idx m (some (selfIdentMap T)) = Except.ok (d, a) →
      a.bareTy.inputs.head? = some ⟨some "_self",
        Tok.punct "&" :: (lifetimeToks lt ++ [Tok.ident T])⟩) ∧
    (m.sig.inputs = FnArg.selfValue false :: rest →
      convert mn (some T) idx m (some (selfIdentMap T)) = Except.ok (d, a) →
      a.bareTy.inputs.head? = some ⟨some "_self", [Tok.ident T]⟩) := by
  refine ⟨fun hin hc => ?_, fun hin hc => ?_, fun hin hc => ?_⟩
  all_goals
    obtain ⟨bs, hci, hty, -, -, -⟩ := convert_ok hc
    rw [hin] at hci
    obtain ⟨d1, b, d2, bs', hca, -, -, hbs⟩ := convertInputs_cons_ok hci
    rw [convertArg] at hca
    injection hca with hpair
    injection hpair with h1 h2
    rw [hty, hbs, ← h2]
    rfl

/-- Witness for C5: inside type `MyStruct`, the method `fn clear(&mut self);`
gets first parameter `_self: &mut MyStruct`, `fn dupe(&self) -> Self;` gets
`_self: &MyStruct`, and `fn consume(self);` gets `_self: MyStruct`. -/
theorem claim_C5_witness :
    (Assertion.bareTy exRecvMutAssertion).inputs.head? =
      some ⟨some "_self", [Tok.punct "&", Tok.ident "mut", Tok.ident "MyStruct"]⟩ ∧
    (Assertion.bareTy exRecvRefAssertion).inputs.head? =
      some ⟨some "_self", [Tok.punct "&", Tok.ident "MyStruct"]⟩ ∧
    (Assertion.bareTy exRecvValAssertion).inputs.head? =
      some ⟨some "_self", [Tok.ident "MyStruct"]⟩ :=
  ⟨(claim_C5 "my_mod" "MyStruct" 0 exRecvMutMethod none [] [] exRecvMutAssertion).1
      rfl rfl,
    (claim_C5 "my_mod" "MyStruct" 0 exRecvRefMethod none [] [] exRecvRefAssertion).2.1
      rfl rfl,
    (claim_C5 "my_mod" "MyStruct" 0 exRecvValMethod none [] [] exRecvValAssertion).2.2
      rfl rfl⟩

namespace DefMod

/-- On an argument list with no receiver form, conversion at module level
(no enclosing type, no identifier mapping) succeeds and yields exactly the
declared parameter types in order. -/
theorem convertInputs_no_receiver (mi : String) (args : List FnArg)
    (h : ∀ arg ∈ args, arg.isReceiver = false)
    (hp : ∀ arg ∈ args, arg.patOk = true) :
    ∃ d bs, convertInputs none none mi args = Except.ok (d, bs) ∧
      bs.map BareFnArg.ty = args.map FnArg.declaredTy := by
  induction args with
  | nil => exact ⟨[], [], rfl, rfl⟩
  | cons a rest ih =>
    obtain ⟨d2, bs', hr, hmap⟩ := ih (fun x hx => h x (List.mem_cons_of_mem _ hx))
      (fun x hx => hp x (List.mem_cons_of_mem _ hx))
    have ha := h a (List.mem_cons_self _ _)
    have hpa := hp a (List.mem_cons_self _ _)
    cases a with
    | selfRef lt mu => simp [FnArg.isReceiver] at ha
    | selfValue mu => simp [FnArg.isReceiver] at ha
    | captured pat ty =>
      rw [FnArg.patOk] at hpa
      obtain ⟨n, hn⟩ := Option.isSome_iff_exists.mp hpa
      have hca : convertArg none none mi (FnArg.captured pat ty)
          = Except.ok ([], ⟨some n, ty⟩) := by
        rw [convertArg, hn]
        rfl
      refine ⟨[] ++ d2, ⟨some n, ty⟩ :: bs', ?_, ?_⟩
      · rw [convertInputs, hca, hr]
      · simp [hmap, FnArg.declaredTy]
    | inferred pat =>
      rw [FnArg.patOk] at hpa
      obtain ⟨n, hn⟩ := Option.isSome_iff_exists.mp hpa
      have hca : convertArg none none mi (FnArg.inferred pat)
          = Except.ok ([], ⟨some n, [Tok.ident "_"]⟩) := by
        rw [convertArg, hn]
      refine ⟨[] ++ d2, ⟨some n, [Tok.ident "_"]⟩ :: bs', ?_, ?_⟩
      · rw [convertInputs, hca, hr]
      · simp [hmap, FnArg.declaredTy]
    | ignored ty =>
      refine ⟨[deprecatedWarn mi] ++ d2, ⟨none, ty⟩ :: bs', ?_, ?_⟩
      · rw [convertInputs, hr]
        rfl
      · simp [hmap, FnArg.declaredTy]

end DefMod

/-- C6 counterexample: the bare module-level method `fn dupe(&self);` does not
have its receiver dropped; `convert` panics (the `expect` on the failed
`BareFnArg` parse), so no function-pointer type is emitted at all for it.
Likewise the receiver-free `fn f(mut x: u32);` is not converted into a
function-pointer type: its `mut x` pattern fails the `BareFnArg` re-parse and
the `expect` at src/lib.rs line 554 panics. -/
theorem claim_C6_counterexample :
    convert "my_mod" none 0 exBareSelfMethod none =
      Except.error "Should never happen [self-ref]" ∧
    convert "my_mod" none 0 exMutPatMethod none =
      Except.error "Should never happen [arg-captured]" := ⟨rfl, rfl⟩

/-- C6 (amended): for every bare method declaration appearing directly in a
module body whose parameter list contains no receiver form and whose parameter
patterns are all plain identifiers or the wildcard `_`, the emitted bare
function-pointer type is constructed from the method's declared parameter
types in order and its return type.  (As the claim originally stood, a
receiver parameter is not dropped: per the counterexample and C10, a receiver
in a bare method makes the generator panic instead; and a qualified pattern
such as `mut x` also panics rather than emitting a type, per the
counterexample's second part.) -/
theorem claim_C6 (mn : String) (idx : Nat) (m : TraitItemMethod)
    (h : ∀ arg ∈ m.sig.inputs, arg.isReceiver = false)
    (hp : ∀ arg ∈ m.sig.inputs, arg.patOk = true) :
    ∃ d a, convert mn none idx m none = Except.ok (d, a) ∧
      a.bareTy.inputs.map BareFnArg.ty = m.sig.inputs.map FnArg.declaredTy ∧
      a.bareTy.output = m.sig.output := by
  obtain ⟨d, bs, hci, hmap⟩ := convertInputs_no_receiver m.sig.ident m.sig.inputs h hp
  by_cases hg : m.sig.generics.params = []
  · refine ⟨d, Assertion.constBind m.attrs (mkAssertName idx)
      ⟨m.sig.unsafety, m.sig.abi, bs, m.sig.variadic, m.sig.output⟩
      (Option.getD none mn) m.sig.ident, ?_, hmap, rfl⟩
    rw [convert, hci]
    dsimp only
    rw [if_pos hg]
    rfl
  · refine ⟨d, Assertion.nestedFn m.attrs (nestedFnName mn none m.sig.ident) m.sig.generics
      (mkAssertName idx) ⟨m.sig.unsafety, m.sig.abi, bs, m.sig.variadic, m.sig.output⟩
      (Option.getD none mn) m.sig.ident, ?_, hmap, rfl⟩
    rw [convert, hci]
    dsimp only
    rw [if_neg hg]
    rfl

/-- Witness for C6: `fn method(_: u64, _: u8) -> u32;` yields a function
pointer type with parameter types `u64, u8` in order and return type `u32`. -/
theorem claim_C6_witness :
    ∃ d a, convert "other" none 0 exBareMethod none = Except.ok (d, a) ∧
      a.bareTy.inputs.map BareFnArg.ty = exBareMethod.sig.inputs.map FnArg.declaredTy ∧
      a.bareTy.output = exBareMethod.sig.output :=
  claim_C6 "other" 0 exBareMethod (by decide) (by decide)

namespace DefMod

/-- With no enclosing type name, converting a receiver argument always panics
(the rendered token stream has an empty type position and the `BareFnArg`
parse fails). -/
theorem convertArg_receiver_error (mp : Option (String → String)) (mi : String)
    (a : FnArg) (ha : a.isReceiver = true) :
    ∃ e, convertArg none mp mi a = Except.error e := by
  cases a with
  | selfRef lt mu => exact ⟨_, rfl⟩
  | selfValue mu => exact ⟨_, rfl⟩
  | captured pat ty => simp [FnArg.isReceiver] at ha
  | inferred pat => simp [FnArg.isReceiver] at ha
  | ignored ty => simp [FnArg.isReceiver] at ha

/-- With no enclosing type name, an argument list containing any receiver form
makes the input conversion panic. -/
theorem convertInputs_receiver_error (mp : Option (String → String)) (mi : String)
    (args : List FnArg) (h : ∃ a ∈ args, a.isReceiver = true) :
    ∃ e, convertInputs none mp mi args = Except.error e := by
  induction args with
  | nil =>
    obtain ⟨a, ha, -⟩ := h
    cases ha
  | cons a rest ih =>
    obtain ⟨x, hx, hrec⟩ := h
    rcases List.mem_cons.mp hx with rfl | hx'
    · obtain ⟨e, he⟩ := convertArg_receiver_error mp mi x hrec
      exact ⟨e, by rw [convertInputs, he]⟩
    · cases hca : convertArg none mp mi a with
      | error e => exact ⟨e, by rw [convertInputs, hca]⟩
      | ok p =>
        obtain ⟨d1, b⟩ := p
        obtain ⟨e, he⟩ := ih ⟨x, hx', hrec⟩
        exact ⟨e, by rw [convertInputs, hca, he]⟩

/-- A bare module-level method (no enclosing type) with a receiver parameter
makes `convert` panic. -/
theorem convert_receiver_error (mn : String) (idx : Nat) (m : TraitItemMethod)
    (mp : Option (String → String)) (h : ∃ a ∈ m.sig.inputs, a.isReceiver = true) :
    ∃ e, convert mn none idx m mp = Except.error e := by
  obtain ⟨e, he⟩ := convertInputs_receiver_error mp m.sig.ident m.sig.inputs h
  exact ⟨e, by rw [convert, he]⟩

/-- A bare module-level method with a receiver and no default body makes
`tokenise_method` panic. -/
theorem tokeniseMethod_receiver_error (mn : String) (idx : Nat) (m : TraitItemMethod)
    (hb : m.defaultBody = none) (h : ∃ a ∈ m.sig.inputs, a.isReceiver = true) :
    ∃ e, tokeniseMethod mn none idx m = Except.error e := by
  obtain ⟨e, he⟩ := convert_receiver_error mn idx m none h
  refine ⟨e, ?_⟩
  rw [tokeniseMethod, hb]
  dsimp only
  simp only [Option.map_none']
  rw [he]

/-- An item list containing a bare receiver method makes the body processing
panic, wherever the bad item sits. -/
theorem processItems_receiver_error (mn : String) (m : TraitItemMethod)
    (hb : m.defaultBody = none) (hr : ∃ a ∈ m.sig.inputs, a.isReceiver = true) :
    ∀ (xs ys : List DeclItem) (idx : Nat),
      ∃ e, processItems mn idx (xs ++ DeclItem.method m :: ys) = Except.error e := by
  intro xs
  induction xs with
  | nil =>
    intro ys idx
    obtain ⟨e, he⟩ := tokeniseMethod_receiver_error mn idx m hb hr
    refine ⟨e, ?_⟩
    rw [List.nil_append, processItems, processItem, he]
  | cons x xs ih =>
    intro ys idx
    rw [List.cons_append]
    cases hx : processItem mn idx x with
    | error e => exact ⟨e, by rw [processItems, hx]⟩
    | ok p =>
      obtain ⟨d1, c1, i1⟩ := p
      obtain ⟨e, he⟩ := ih ys i1
      refine ⟨e, ?_⟩
      rw [processItems, hx]
      dsimp only
      rw [he]

/-- A module whose braced body contains a bare receiver method panics. -/
theorem defModModule_receiver_error (M : ModuleDecl) (xs ys : List DeclItem)
    (m : TraitItemMethod) (hM : M.body = ModuleBody.content (xs ++ DeclItem.method m :: ys))
    (hb : m.defaultBody = none) (hr : ∃ a ∈ m.sig.inputs, a.isReceiver = true) :
    ∃ e, defModModule M = Except.error e := by
  obtain ⟨e, he⟩ := processItems_receiver_error M.ident m hb hr xs ys 0
  refine ⟨e, ?_⟩
  rw [defModModule, hM]
  dsimp only
  rw [he]

end DefMod

/-- C10: for every method declaration appearing directly in a module body (no
enclosing type) whose parameter list contains a receiver form (`self`,
`&self`, or `&mut self`) and which carries no default body, the generator
panics: the receiver is rewritten to a token stream with an empty type
position, the `BareFnArg` parse fails, the `expect` aborts, and the whole
macro invocation errors instead of producing output for any item, whichever
modules surround the offending one. -/
theorem claim_C10 (ms1 ms2 : List ModuleDecl) (M : ModuleDecl) (xs ys : List DeclItem)
    (m : TraitItemMethod)
    (hM : M.body = ModuleBody.content (xs ++ DeclItem.method m :: ys))
    (hb : m.defaultBody = none) (hr : ∃ a ∈ m.sig.inputs, a.isReceiver = true) :
    ∃ e, defMod (ms1 ++ M :: ms2) = Except.error e := by
  induction ms1 with
  | nil =>
    obtain ⟨e, he⟩ := defModModule_receiver_error M xs ys m hM hb hr
    refine ⟨e, ?_⟩
    rw [List.nil_append, defMod, he]
  | cons m1 ms1 ih =>
    rw [List.cons_append]
    cases h1 : defModModule m1 with
    | error e => exact ⟨e, by rw [defMod, h1]⟩
    | ok p =>
      obtain ⟨d1, s1, lf1⟩ := p
      obtain ⟨e, he⟩ := ih
      refine ⟨e, ?_⟩
      rw [defMod, h1]
      dsimp only
      rw [he]

/-- Witness for C10: a single module holding the bare method `fn dupe(&self);`
makes the whole invocation abort with an error. -/
theorem claim_C10_witness :
    ∃ e, defMod [exRecvBareMod] = Except.error e :=
  claim_C10 [] [] exRecvBareMod [] [] exBareSelfMethod rfl rfl
    ⟨FnArg.selfRef none false, by simp [exBareSelfMethod], rfl⟩

namespace DefMod

/-- Body processing splits over list append: the items after a prefix are
processed from the index the prefix ended at, and diagnostics and checks
concatenate. -/
theorem processItems_append (mn : String) (idx : Nat) (xs ys : List DeclItem) :
    processItems mn idx (xs ++ ys) =
      match processItems mn idx xs with
      | Except.error e => Except.error e
      | Except.ok (d1, c1, i1) =>
        match processItems mn i1 ys with
        | Except.error e => Except.error e
        | Except.ok (d2, c2, i2) => Except.ok (d1 ++ d2, c1 ++ c2, i2) := by
  induction xs generalizing idx with
  | nil =>
    rw [List.nil_append]
    cases h : processItems mn idx ys with
    | error e => simp [processItems, h]
    | ok p =>
      obtain ⟨d2, c2, i2⟩ := p
      simp [processItems, h]
  | cons x xs ih =>
    rw [List.cons_append]
    simp only [processItems]
    cases hx : processItem mn idx x with
    | error e => rfl
    | ok p =>
      obtain ⟨d1, c1, i1⟩ := p
      dsimp only
      rw [ih i1]
      cases h1 : processItems mn i1 xs with
      | error e => rfl
      | ok p2 =>
        obtain ⟨d2, c2, i2⟩ := p2
        dsimp only
        cases h2 : processItems mn i2 ys with
        | error e => rfl
        | ok p3 =>
          obtain ⟨d3, c3, i3⟩ := p3
          simp

end DefMod

/-- C9: a method declaration carrying a default implementation body yields the
fatal error diagnostic located at the body's span and aborts only that single
item's code generation: `tokenise_method` returns an empty token stream for it
without consuming an index, and the surrounding items (`xs` before it, `ys`
after it, in any module) are processed exactly as they would be with the bad
item deleted, with only the diagnostic inserted between their outputs. -/
theorem claim_C9 (mn sp : String) (idx : Nat) (xs ys : List DeclItem)
    (m : TraitItemMethod) (hb : m.defaultBody = some sp) :
    tokeniseMethod mn none idx m = Except.ok ([bodyErr sp], [], idx) ∧
    processItems mn idx (xs ++ DeclItem.method m :: ys) =
      (match processItems mn idx xs with
       | Except.error e => Except.error e
       | Except.ok (d1, c1, i1) =>
         match processItems mn i1 ys with
         | Except.error e => Except.error e
         | Except.ok (d2, c2, i2) => Except.ok (d1 ++ bodyErr sp :: d2, c1 ++ c2, i2)) := by
  have htok : ∀ j : Nat, tokeniseMethod mn none j m = Except.ok ([bodyErr sp], [], j) := by
    intro j
    rw [tokeniseMethod, hb]
  refine ⟨htok idx, ?_⟩
  rw [processItems_append mn idx xs (DeclItem.method m :: ys)]
  cases h1 : processItems mn idx xs with
  | error e => rfl
  | ok p1 =>
    obtain ⟨d1, c1, i1⟩ := p1
    dsimp only
    rw [processItems, processItem, htok i1]
    dsimp only
    cases h2 : processItems mn i1 ys with
    | error e => rfl
    | ok p2 =>
      obtain ⟨d2, c2, i2⟩ := p2
      dsimp only
      simp

/-- Witness for C9: a module body holding the bad method followed by
`fn method(_: u32) -> u8;` produces the diagnostic at `body_span` plus the
sibling's assertion at index `0`, exactly as if the bad item were absent. -/
theorem claim_C9_witness :
    processItems "other" 0 [DeclItem.method exBodyMethod, DeclItem.method exPlainMethod] =
      Except.ok ([bodyErr "body_span"], [CheckItem.assertion exPlainAssertion], 1) := by
  have h := (claim_C9 "other" "body_span" 0 [] [DeclItem.method exPlainMethod]
    exBodyMethod rfl).2
  exact h.trans (by rfl)

/-- C8 counterexample: the module `mod m { }`, declared with an empty (braced)
body, still gets a verification routine: `def_mod` emits
`fn _load_m() { use self::m::*; }` because the load function is generated for
every braced (`Content`) body, empty or not. -/
theorem claim_C8_counterexample :
    defModModule exEmptyBracedMod =
      Except.ok ([], [⟨[], "", "m"⟩], some ⟨"_load_m", "m", []⟩) := rfl

/-- C8 (amended): for every module declaration that processes without a panic,
a verification routine (`_load_` function) is emitted exactly when the module
was declared with a braced body — even an empty braced body produces the
(trivial) routine, and only a semicolon-terminated declaration produces
none. -/
theorem claim_C8 (m : ModuleDecl) (d : List Diag) (s : List ModStmt) (lf : Option LoadFn)
    (h : defModModule m = Except.ok (d, s, lf)) :
    lf.isSome = m.body.isContent := by
  cases hb : m.body with
  | terminated =>
    rw [defModModule, hb] at h
    dsimp only at h
    injection h with hp
    simp only [Prod.mk.injEq] at hp
    obtain ⟨-, -, h3⟩ := hp
    rw [← h3]
    rfl
  | content items =>
    rw [defModModule, hb] at h
    dsimp only at h
    cases hp : processItems m.ident 0 items with
    | error e => rw [hp] at h; cases h
    | ok p =>
      obtain ⟨dd, cc, ii⟩ := p
      rw [hp] at h
      dsimp only at h
      injection h with hpair
      simp only [Prod.mk.injEq] at hpair
      obtain ⟨-, -, h3⟩ := hpair
      rw [← h3]
      rfl

/-- Witness for C8 (amended): the bodiless declaration `mod m;` yields no load
function, matching its non-braced body. -/
theorem claim_C8_witness :
    (none : Option LoadFn).isSome = ModuleBody.isContent exTermMod.body :=
  claim_C8 exTermMod [] [⟨[], "", "m"⟩] none rfl

/-- C7 (code evaluated at the failing input): for the crate's own
`src/bin/main.rs` declaration `#[macos] = "~nix" mod test`, the emitted path
directive carries the string `~nix` verbatim; the `~` shorthand expansion to
`test/nix/mod.rs` described by the spec is nowhere implemented in
`src/lib.rs`. -/
theorem claim_C7_code :
    emitModStmts exTildeMod =
      [⟨[ModAttr.plain "#[macos]", ModAttr.pathDirective "~nix"], "", "test"⟩] ∧
    "~nix" ≠ "test/nix/mod.rs" := ⟨rfl, by decide⟩

namespace DefMod

/-- `assertNames` distributes over list append. -/
theorem assertNames_append (c1 c2 : List CheckItem) :
    assertNames (c1 ++ c2) = assertNames c1 ++ assertNames c2 := by
  induction c1 with
  | nil => simp [assertNames]
  | cons c cs ih => simp [assertNames, ih, List.append_assoc]

/-- The names of a list of plain assertion items are their binding names. -/
theorem assertNames_map_assertion (as : List Assertion) :
    assertNames (as.map CheckItem.assertion) = as.map Assertion.loadIdent := by
  induction as with
  | nil => simp [assertNames]
  | cons a as ih => simp [assertNames, CheckItem.assertNames, ih]

/-- Inversion of a successful `tokenise_method`: either the method had a
default body (no assertion, index unchanged) or exactly one assertion is
produced, named after the current index, and the index advances by one. -/
theorem tokeniseMethod_ok {mn : String} {tn : Option String} {idx : Nat}
    {m : TraitItemMethod} {d : List Diag} {as : List Assertion} {i' : Nat}
    (h : tokeniseMethod mn tn idx m = Except.ok (d, as, i')) :
    (as = [] ∧ i' = idx) ∨
    (∃ a, as = [a] ∧ a.loadIdent = mkAssertName idx ∧ i' = idx + 1) := by
  rw [tokeniseMethod] at h
  cases hb : m.defaultBody with
  | some sp =>
    rw [hb] at h
    dsimp only at h
    injection h with hp
    simp only [Prod.mk.injEq] at hp
    obtain ⟨-, h2, h3⟩ := hp
    exact Or.inl ⟨h2.symm, h3.symm⟩
  | none =>
    rw [hb] at h
    dsimp only at h
    cases hc : convert mn tn idx m (tn.map selfIdentMap) with
    | error e => rw [hc] at h; cases h
    | ok p =>
      obtain ⟨dd, a⟩ := p
      rw [hc] at h
      dsimp only at h
      injection h with hp
      simp only [Prod.mk.injEq] at hp
      obtain ⟨-, h2, h3⟩ := hp
      obtain ⟨bs, -, -, hname, -, -⟩ := convert_ok hc
      exact Or.inr ⟨a, h2.symm, hname, h3.symm⟩

/-- Invariant of type-body processing: the produced assertion names are the
images under `mkAssertName` of a strictly increasing list of indices lying in
the interval spanned by the threaded counter. -/
theorem processMethods_names {mn tn : String} :
    ∀ {ms : List TraitItemMethod} {idx : Nat} {d : List Diag}
      {as : List Assertion} {i' : Nat},
      processMethods mn tn idx ms = Except.ok (d, as, i') →
      idx ≤ i' ∧ ∃ is : List Nat, as.map Assertion.loadIdent = is.map mkAssertName ∧
        is.Pairwise (· < ·) ∧ ∀ j ∈ is, idx ≤ j ∧ j < i' := by
  intro ms
  induction ms with
  | nil =>
    intro idx d as i' h
    rw [processMethods] at h
    injection h with hp
    simp only [Prod.mk.injEq] at hp
    obtain ⟨-, h2, h3⟩ := hp
    subst h3
    refine ⟨le_rfl, [], ?_, List.Pairwise.nil, by simp⟩
    rw [← h2]
    simp
  | cons m rest ih =>
    intro idx d as i' h
    rw [processMethods] at h
    cases h1 : tokeniseMethod mn (some tn) idx m with
    | error e => rw [h1] at h; cases h
    | ok p1 =>
      obtain ⟨d1, as1, i1⟩ := p1
      rw [h1] at h
      dsimp only at h
      cases h2 : processMethods mn tn i1 rest with
      | error e => rw [h2] at h; cases h
      | ok p2 =>
        obtain ⟨d2, as2, i2⟩ := p2
        rw [h2] at h
        dsimp only at h
        injection h with hp
        simp only [Prod.mk.injEq] at hp
        obtain ⟨-, has, hi⟩ := hp
        subst hi
        obtain ⟨hle2, is2, hmap2, hpw2, hbnd2⟩ := ih h2
        rcases tokeniseMethod_ok h1 with ⟨hnil, hidx⟩ | ⟨a, hone, hname, hidx⟩
        · subst hnil hidx
          refine ⟨hle2, is2, ?_, hpw2, fun j hj => ⟨(hbnd2 j hj).1, (hbnd2 j hj).2⟩⟩
          rw [← has]
          simpa using hmap2
        · subst hone hidx
          refine ⟨by omega, idx :: is2, ?_, ?_, ?_⟩
          · rw [← has]
            simp [hname, hmap2]
          · exact List.Pairwise.cons (fun j hj => by have := (hbnd2 j hj).1; omega) hpw2
          · intro j hj
            rcases List.mem_cons.mp hj with rfl | hj'
            · exact ⟨le_rfl, by omega⟩
            · have := hbnd2 j hj'
              omega

end DefMod

namespace DefMod

/-- Invariant of single-item processing: the generated names come from a
strictly increasing index list inside the counter's interval, whether the item
is a bare method or a type block holding nested method assertions. -/
theorem processItem_names {mn : String} {item : DeclItem} {idx : Nat} {d : List Diag}
    {cs : List CheckItem} {i' : Nat}
    (h : processItem mn idx item = Except.ok (d, cs, i')) :
    idx ≤ i' ∧ ∃ is : List Nat, assertNames cs = is.map mkAssertName ∧
      is.Pairwise (· < ·) ∧ ∀ j ∈ is, idx ≤ j ∧ j < i' := by
  cases item with
  | method m =>
    rw [processItem] at h
    cases h1 : tokeniseMethod mn none idx m with
    | error e => rw [h1] at h; cases h
    | ok p1 =>
      obtain ⟨d1, as1, i1⟩ := p1
      rw [h1] at h
      dsimp only at h
      injection h with hp
      simp only [Prod.mk.injEq] at hp
      obtain ⟨-, hcs, hi⟩ := hp
      subst hi
      rcases tokeniseMethod_ok h1 with ⟨hnil, hidx⟩ | ⟨a, hone, hname, hidx⟩
      · subst hnil hidx
        refine ⟨le_rfl, [], ?_, List.Pairwise.nil, by simp⟩
        rw [← hcs]
        simp [assertNames]
      · subst hone hidx
        refine ⟨by omega, [idx], ?_, List.pairwise_singleton _ _, ?_⟩
        · rw [← hcs]
          simp [assertNames, CheckItem.assertNames, hname]
        · intro j hj
          rcases List.mem_singleton.mp hj with rfl
          exact ⟨le_rfl, by omega⟩
  | typeItem t =>
    rw [processItem] at h
    cases hb : t.body with
    | terminated =>
      rw [hb] at h
      dsimp only at h
      injection h with hp
      simp only [Prod.mk.injEq] at hp
      obtain ⟨-, hcs, hi⟩ := hp
      subst hi
      refine ⟨le_rfl, [], ?_, List.Pairwise.nil, by simp⟩
      rw [← hcs]
      simp [assertNames, CheckItem.assertNames]
    | content ms =>
      rw [hb] at h
      dsimp only at h
      cases h1 : processMethods mn t.ident idx ms with
      | error e => rw [h1] at h; cases h
      | ok p1 =>
        obtain ⟨d1, as1, i1⟩ := p1
        rw [h1] at h
        dsimp only at h
        injection h with hp
        simp only [Prod.mk.injEq] at hp
        obtain ⟨-, hcs, hi⟩ := hp
        subst hi
        obtain ⟨hle, is, hmap, hpw, hbnd⟩ := processMethods_names h1
        refine ⟨hle, is, ?_, hpw, hbnd⟩
        rw [← hcs]
        simp [assertNames, CheckItem.assertNames, hmap]

/-- Invariant of module-body processing: the generated assertion names of the
whole body are the images of a strictly increasing index list inside the
counter's interval. -/
theorem processItems_names {mn : String} :
    ∀ {items : List DeclItem} {idx : Nat} {d : List Diag}
      {cs : List CheckItem} {i' : Nat},
      processItems mn idx items = Except.ok (d, cs, i') →
      idx ≤ i' ∧ ∃ is : List Nat, assertNames cs = is.map mkAssertName ∧
        is.Pairwise (· < ·) ∧ ∀ j ∈ is, idx ≤ j ∧ j < i' := by
  intro items
  induction items with
  | nil =>
    intro idx d cs i' h
    rw [processItems] at h
    injection h with hp
    simp only [Prod.mk.injEq] at hp
    obtain ⟨-, hcs, hi⟩ := hp
    subst hi
    refine ⟨le_rfl, [], ?_, List.Pairwise.nil, by simp⟩
    rw [← hcs]
    simp [assertNames]
  | cons item rest ih =>
    intro idx d cs i' h
    rw [processItems] at h
    cases h1 : processItem mn idx item with
    | error e => rw [h1] at h; cases h
    | ok p1 =>
      obtain ⟨d1, cs1, i1⟩ := p1
      rw [h1] at h
      dsimp only at h
      cases h2 : processItems mn i1 rest with
      | error e => rw [h2] at h; cases h
      | ok p2 =>
        obtain ⟨d2, cs2, i2⟩ := p2
        rw [h2] at h
        dsimp only at h
        injection h with hp
        simp only [Prod.mk.injEq] at hp
        obtain ⟨-, hcs, hi⟩ := hp
        subst hi
        obtain ⟨hle1, is1, hmap1, hpw1, hbnd1⟩ := processItem_names h1
        obtain ⟨hle2, is2, hmap2, hpw2, hbnd2⟩ := ih h2
        refine ⟨le_trans hle1 hle2, is1 ++ is2, ?_, ?_, ?_⟩
        · rw [← hcs, assertNames_append, hmap1, hmap2, List.map_append]
        · rw [List.pairwise_append]
          refine ⟨hpw1, hpw2, fun a ha b hb => ?_⟩
          have hA := hbnd1 a ha
          have hB := hbnd2 b hb
          omega
        · intro j hj
          rcases List.mem_append.mp hj with hj1 | hj2
          · have := hbnd1 j hj1
            omega
          · have := hbnd2 j hj2
            omega

end DefMod

/-- C3: for every module whose body processes successfully into a load
function, every emitted assertion — constant binding or nested verification
routine — receives its binding name from the single monotonically increasing
counter scoped to the enclosing module (the names are the images under
`mkAssertName` of a strictly increasing index list), and the generated
identifiers are pairwise distinct regardless of nesting, even when multiple
types or methods share a display name. -/
theorem claim_C3 (M : ModuleDecl) (d : List Diag) (s : List ModStmt) (lf : LoadFn)
    (h : defModModule M = Except.ok (d, s, some lf)) :
    (∃ is : List Nat, assertNames lf.items = is.map mkAssertName ∧
      is.Pairwise (· < ·)) ∧
    (assertNames lf.items).Nodup := by
  cases hb : M.body with
  | terminated =>
    rw [defModModule, hb] at h
    dsimp only at h
    injection h with hp
    simp only [Prod.mk.injEq] at hp
    exact Option.noConfusion hp.2.2
  | content items =>
    rw [defModModule, hb] at h
    dsimp only at h
    cases hp : processItems M.ident 0 items with
    | error e => rw [hp] at h; cases h
    | ok p =>
      obtain ⟨dd, cc, ii⟩ := p
      rw [hp] at h
      dsimp only at h
      injection h with hpair
      simp only [Prod.mk.injEq, Option.some.injEq] at hpair
      obtain ⟨-, -, hlf⟩ := hpair
      have hitems : lf.items = cc := by rw [← hlf]
      obtain ⟨-, is, hmap, hpw, -⟩ := processItems_names hp
      rw [hitems, hmap]
      refine ⟨⟨is, rfl, hpw⟩, ?_⟩
      show (is.map mkAssertName).Pairwise (· ≠ ·)
      exact List.pairwise_map.mpr (hpw.imp fun hab heq =>
        absurd (mkAssertName_inj heq) (Nat.ne_of_lt hab))

/-- Witness for C3: in the module with types `A` and `B` both exporting `new`
plus a bare `method`, the three generated identifiers are
`_ASSERT_METHOD_0`, `_ASSERT_METHOD_1`, `_ASSERT_METHOD_2` — pairwise
distinct despite the shared display name. -/
theorem claim_C3_witness :
    (∃ is : List Nat, assertNames exC3LoadFn.items = is.map mkAssertName ∧
      is.Pairwise (· < ·)) ∧
    (assertNames exC3LoadFn.items).Nodup :=
  claim_C3 exC3Mod [] [⟨[], "", "m"⟩] exC3LoadFn rfl
